import Mathlib

/-!
Verification of the TMT-to-FHIR converter (`src/index.js` and
`src/modules/*.js`) against its natural-language specification.

The JavaScript data and functions are shallowly embedded:

* A FHIR concept property `{code, valueCode | valueBoolean}` becomes
  `ConceptProperty`, whose payload `PVal` records which JSON field is present
  and its value (`valueBoolean` holds a string in one module of the source,
  so the payload distinguishes boolean and string payloads of that field).
* JavaScript string truthiness is modelled by comparison with `""`: in every
  embedded function a string value is only ever tested for truthiness or
  compared for equality, and `undefined`/missing string fields behave exactly
  like `""` in those positions (`Set.has` never holds for either, since codes
  are only inserted when truthy).
* Spreadsheet rows (`row[0]`, `row[1]` after the source's `String(...)`
  conversions) become `List String`, with out-of-range access yielding `""`.
* The in-place mutation of `templateJson.concept` is modelled by returning
  the updated collection alongside the function's JavaScript return value.
-/

namespace TMT

/-- Payload of one FHIR concept property as emitted by the source: either a
`valueCode` string field, a `valueBoolean` boolean field, or — as in
`createGPUConcept` in `src/modules/gpuProcessor.js`, which writes
`valueBoolean: "true"` — a `valueBoolean` field holding a string. -/
inductive PVal where
  | vCode (s : String)
  | vBool (b : Bool)
  | vBoolStr (s : String)
deriving DecidableEq, Repr

/-- One entry of a concept's `property` array: `{code, valueCode|valueBoolean}`. -/
structure ConceptProperty where
  code : String
  val : PVal
deriving DecidableEq, Repr

/-- One synthesized concept `{code, display, property}`. A missing or falsy
`code` in the JavaScript object is modelled by `""`. -/
structure Concept where
  code : String
  display : String
  property : List ConceptProperty
deriving DecidableEq, Repr

/-- Reading `property.valueCode`: the string when the property carries a
`valueCode` field, and `""` (the model of JavaScript `undefined`, which is
falsy and never a member of the code set) otherwise. -/
def valueCodeOf (p : ConceptProperty) : String :=
  match p.val with
  | .vCode s => s
  | _ => ""

/-! Section: Deduplicator — `removeDuplicateConcepts`, `src/index.js` lines 77-110

The source iterates over `templateJson.concept`, inserting each concept with
a truthy `code` into a `Map` keyed by `code` only if the key is absent, then
replaces the collection by the map's values (insertion order) and returns
`length before - length after`. -/

/-- The iteration of `removeDuplicateConcepts` over the concept array:
`seen` is the key set of the `Map` built so far; a concept is kept exactly
when its code is truthy and not yet a key. -/
def dedupGo : List Concept → List String → List Concept
  | [], _ => []
  | c :: rest, seen =>
    if c.code != "" && !decide (c.code ∈ seen) then
      c :: dedupGo rest (c.code :: seen)
    else
      dedupGo rest seen

/-- Embeds `removeDuplicateConcepts(templateJson)`: returns the deduplicated
collection and the removed count `concepts.length - uniqueConcepts.length`. -/
def removeDuplicateConcepts (concepts : List Concept) : List Concept × Nat :=
  let uniques := dedupGo concepts []
  (uniques, concepts.length - uniques.length)

theorem dedupGo_sublist (l : List Concept) (seen : List String) :
    (dedupGo l seen).Sublist l := by
  induction l generalizing seen with
  | nil => simp [dedupGo]
  | cons c rest ih =>
    rw [dedupGo]
    split
    · exact (ih (c.code :: seen)).cons₂ c
    · exact (ih seen).cons c

theorem mem_dedupGo (l : List Concept) (seen : List String) (c : Concept)
    (h : c ∈ dedupGo l seen) : c.code ≠ "" ∧ c.code ∉ seen := by
  induction l generalizing seen with
  | nil => simp [dedupGo] at h
  | cons d rest ih =>
    rw [dedupGo] at h
    split at h
    · rename_i hcond
      simp only [Bool.and_eq_true, bne_iff_ne, ne_eq, Bool.not_eq_true',
        decide_eq_false_iff_not] at hcond
      rcases List.mem_cons.mp h with rfl | h
      · exact ⟨hcond.1, hcond.2⟩
      · have := ih (d.code :: seen) h
        exact ⟨this.1, fun hm => this.2 (List.mem_cons_of_mem _ hm)⟩
    · exact ih seen h

theorem dedupGo_codes_nodup (l : List Concept) (seen : List String) :
    ((dedupGo l seen).map Concept.code).Nodup := by
  induction l generalizing seen with
  | nil => simp [dedupGo]
  | cons c rest ih =>
    rw [dedupGo]
    split
    · refine List.nodup_cons.mpr ⟨?_, ih (c.code :: seen)⟩
      intro hmem
      rcases List.mem_map.mp hmem with ⟨d, hd, hdc⟩
      have := (mem_dedupGo _ _ _ hd).2
      exact this (by simp [hdc])
    · exact ih seen

theorem dedupGo_find_first (l : List Concept) (seen : List String) (c : Concept)
    (h : c ∈ dedupGo l seen) :
    l.find? (fun d => d.code == c.code) = some c := by
  induction l generalizing seen with
  | nil => simp [dedupGo] at h
  | cons d rest ih =>
    have hc := mem_dedupGo _ _ _ h
    rw [dedupGo] at h
    split at h
    · rcases List.mem_cons.mp h with rfl | h
      · simp [List.find?]
      · have hne : c.code ≠ d.code := by
          intro he
          exact (mem_dedupGo _ _ _ h).2 (by simp [he])
        rw [List.find?]
        rw [beq_eq_false_iff_ne.mpr (Ne.symm hne)]
        exact ih (d.code :: seen) h
    · rename_i hcond
      simp only [Bool.and_eq_true, bne_iff_ne, ne_eq, Bool.not_eq_true',
        decide_eq_false_iff_not, not_and, Classical.not_not] at hcond
      have hne : c.code ≠ d.code := by
        intro he
        by_cases hd : d.code = ""
        · exact hc.1 (he.trans hd)
        · exact hc.2 (he ▸ hcond hd)
      rw [List.find?]
      rw [beq_eq_false_iff_ne.mpr (Ne.symm hne)]
      exact ih seen h

theorem dedupGo_code_survives (l : List Concept) (seen : List String) (c : Concept)
    (hc : c ∈ l) (hne : c.code ≠ "") :
    c.code ∈ (dedupGo l seen).map Concept.code ∨ c.code ∈ seen := by
  induction l generalizing seen with
  | nil => simp at hc
  | cons d rest ih =>
    rw [dedupGo]
    split
    · rcases List.mem_cons.mp hc with rfl | hc
      · exact .inl (by simp)
      · rcases ih (d.code :: seen) hc with h | h
        · exact .inl (by
            simp only [List.map_cons]
            exact List.mem_cons_of_mem _ h)
        · rcases List.mem_cons.mp h with he | h
          · exact .inl (by simp [he])
          · exact .inr h
    · rename_i hcond
      simp only [Bool.and_eq_true, bne_iff_ne, ne_eq, Bool.not_eq_true',
        decide_eq_false_iff_not, not_and, Classical.not_not] at hcond
      rcases List.mem_cons.mp hc with rfl | hc
      · exact .inr (hcond hne)
      · exact ih seen hc

theorem dedupGo_fixed (m : List Concept) (seen : List String)
    (hcodes : (m.map Concept.code).Nodup)
    (hok : ∀ c ∈ m, c.code ≠ "" ∧ c.code ∉ seen) :
    dedupGo m seen = m := by
  induction m generalizing seen with
  | nil => simp [dedupGo]
  | cons c rest ih =>
    have hc := hok c (by simp)
    rw [dedupGo]
    have : (c.code != "" && !decide (c.code ∈ seen)) = true := by
      simp [hc.1, hc.2]
    rw [if_pos this]
    congr 1
    refine ih (c.code :: seen) (List.nodup_cons.mp hcodes).2 ?_
    intro d hd
    have hdok := hok d (by simp [hd])
    refine ⟨hdok.1, ?_⟩
    intro hmem
    rcases List.mem_cons.mp hmem with he | hmem
    · exact (List.nodup_cons.mp hcodes).1 (he ▸ List.mem_map_of_mem Concept.code hd)
    · exact hdok.2 hmem

theorem sublist_filter_of_all {α : Type} (p : α → Bool) {out l : List α}
    (hsub : out.Sublist l) (hall : ∀ a ∈ out, p a) :
    out.Sublist (l.filter p) := by
  have : out.filter p = out := List.filter_eq_self.mpr hall
  exact this ▸ hsub.filter p

/-- C7: `removeDuplicateConcepts` retains only first occurrences (every
survivor is the first concept in the input carrying its code), preserves the
input's relative order (the output is a sublist of the input), reports the
number of concepts removed, leaves no two survivors sharing a code, and is
idempotent. -/
theorem removeDuplicateConcepts_spec (l : List Concept) :
    ((removeDuplicateConcepts l).1).Sublist l
    ∧ (((removeDuplicateConcepts l).1).map Concept.code).Nodup
    ∧ (∀ c ∈ (removeDuplicateConcepts l).1,
        l.find? (fun d => d.code == c.code) = some c)
    ∧ (∀ c ∈ l, c.code ≠ "" → c.code ∈ ((removeDuplicateConcepts l).1).map Concept.code)
    ∧ (removeDuplicateConcepts l).2 = l.length - ((removeDuplicateConcepts l).1).length
    ∧ removeDuplicateConcepts ((removeDuplicateConcepts l).1)
        = ((removeDuplicateConcepts l).1, 0) := by
  refine ⟨dedupGo_sublist l [], dedupGo_codes_nodup l [], ?_, ?_, rfl, ?_⟩
  · intro c hc
    exact dedupGo_find_first l [] c hc
  · intro c hc hne
    rcases dedupGo_code_survives l [] c hc hne with h | h
    · exact h
    · simp at h
  · have hfix : dedupGo (dedupGo l []) [] = dedupGo l [] := by
      refine dedupGo_fixed _ [] (dedupGo_codes_nodup l []) ?_
      intro c hc
      exact ⟨(mem_dedupGo l [] c hc).1, by simp⟩
    simp [removeDuplicateConcepts, hfix]

theorem removeDuplicateConcepts_spec_witness :
    List.find? (fun d => d.code == (⟨"TP100", "first", []⟩ : Concept).code)
        [(⟨"TP100", "first", []⟩ : Concept), ⟨"TP100", "second", []⟩]
      = some ⟨"TP100", "first", []⟩
    ∧ (removeDuplicateConcepts
        [(⟨"TP100", "first", []⟩ : Concept), ⟨"TP100", "second", []⟩]).2 = 1 := by
  have h := removeDuplicateConcepts_spec
    [(⟨"TP100", "first", []⟩ : Concept), ⟨"TP100", "second", []⟩]
  refine ⟨h.2.2.1 ⟨"TP100", "first", []⟩ (by decide), ?_⟩
  rw [h.2.2.2.2.1]
  decide

/-- C10: `removeDuplicateConcepts` silently drops every concept whose `code`
is falsy (modelled by `""`): no such concept ever appears in the output, and
the returned removed count decomposes as the number of falsy-code concepts
plus the number of truthy-code concepts dropped as duplicates. -/
theorem removeDuplicateConcepts_drops_falsy (l : List Concept) :
    (∀ c ∈ (removeDuplicateConcepts l).1, c.code ≠ "")
    ∧ (removeDuplicateConcepts l).2
        = (l.filter (fun c => c.code == "")).length
          + ((l.filter (fun c => c.code != "")).length
              - ((removeDuplicateConcepts l).1).length) := by
  have hall : ∀ c ∈ (removeDuplicateConcepts l).1, c.code ≠ "" :=
    fun c hc => (mem_dedupGo l [] c hc).1
  refine ⟨hall, ?_⟩
  have hsub : ((removeDuplicateConcepts l).1).Sublist
      (l.filter (fun c => c.code != "")) := by
    refine sublist_filter_of_all _ (dedupGo_sublist l []) ?_
    intro c hc
    simp [hall c hc]
  have hle := hsub.length_le
  have hpart := List.length_eq_length_filter_add (l := l) (fun c => c.code != "")
  have hnot : (fun c : Concept => !(c.code != "")) = (fun c : Concept => c.code == "") := by
    funext c
    simp [bne]
  rw [hnot] at hpart
  show l.length - ((removeDuplicateConcepts l).1).length = _
  omega

theorem removeDuplicateConcepts_drops_falsy_witness :
    ((⟨"", "no code", []⟩ : Concept)
        ∉ (removeDuplicateConcepts
            [(⟨"", "no code", []⟩ : Concept), ⟨"A", "kept", []⟩]).1)
    ∧ (removeDuplicateConcepts
        [(⟨"", "no code", []⟩ : Concept), ⟨"A", "kept", []⟩]).2 = 1 := by
  have h := removeDuplicateConcepts_drops_falsy
    [(⟨"", "no code", []⟩ : Concept), ⟨"A", "kept", []⟩]
  refine ⟨fun hmem => h.1 ⟨"", "no code", []⟩ hmem rfl, ?_⟩
  rw [h.2]
  decide

/-! Section: Reference Validator — `validateParentChildReferences`, `src/index.js`
lines 118-235

The source builds a `Set` of all truthy concept codes, then walks every
concept's `property` array.  With `cleanupInvalidRefs` it filters out each
`parent`/`child` property whose truthy `valueCode` is not in the set
(recording it and incrementing `removedCount`); without, it only records.
It returns a validity flag, the recorded references and summary counts;
`removedCount` in the stats is reported as 0 when cleanup is off. -/

/-- One recorded invalid reference `{concept, reference}`. -/
structure InvalidRef where
  concept : String
  reference : String
deriving DecidableEq, Repr

/-- The `stats` object of the validation result. -/
structure ValidationStats where
  totalConcepts : Nat
  invalidParentRefs : Nat
  invalidChildRefs : Nat
  removedCount : Nat
deriving DecidableEq, Repr

/-- The object returned by `validateParentChildReferences`. -/
structure ValidationResult where
  valid : Bool
  invalidParent : List InvalidRef
  invalidChild : List InvalidRef
  stats : ValidationStats
deriving DecidableEq, Repr

/-- The `conceptCodes` set: codes of all concepts whose `code` is truthy
(`src/index.js` lines 122-127); only membership is ever used, so a list
suffices. -/
def conceptCodes (concepts : List Concept) : List String :=
  (concepts.filter (fun c => c.code != "")).map Concept.code

/-- The removal condition of the cleanup filter for a `parent` property
(`src/index.js` lines 144-153): code is `"parent"`, `valueCode` truthy and
not in the code set. -/
def isInvalidParentRef (codes : List String) (p : ConceptProperty) : Bool :=
  p.code == "parent" && valueCodeOf p != "" && !decide (valueCodeOf p ∈ codes)

/-- The removal condition for a `child` property (`src/index.js` lines
155-164). -/
def isInvalidChildRef (codes : List String) (p : ConceptProperty) : Bool :=
  p.code == "child" && valueCodeOf p != "" && !decide (valueCodeOf p ∈ codes)

/-- The walk over one concept's `property` array: returns the properties the
cleanup filter keeps, the recorded invalid parent and child references (in
traversal order) and the number of removals. -/
def checkProps (codes : List String) (cname : String) :
    List ConceptProperty → List ConceptProperty × List InvalidRef × List InvalidRef × Nat
  | [] => ([], [], [], 0)
  | p :: rest =>
    let r := checkProps codes cname rest
    if isInvalidParentRef codes p then
      (r.1, ⟨cname, valueCodeOf p⟩ :: r.2.1, r.2.2.1, r.2.2.2 + 1)
    else if isInvalidChildRef codes p then
      (r.1, r.2.1, ⟨cname, valueCodeOf p⟩ :: r.2.2.1, r.2.2.2 + 1)
    else
      (p :: r.1, r.2.1, r.2.2.1, r.2.2.2)

/-- The walk over all concepts (`src/index.js` lines 138-192): with
`cleanup` each concept's `property` array is replaced by the filtered one,
without it the concept is untouched; recorded references and the removal
count accumulate in traversal order either way (the source only increments
`removedCount` in the cleanup branch, but reports it as 0 otherwise, so
accumulating unconditionally and gating at the end is equivalent). -/
def validateGo (codes : List String) (cleanup : Bool) :
    List Concept → List Concept × List InvalidRef × List InvalidRef × Nat
  | [] => ([], [], [], 0)
  | c :: rest =>
    let pr := checkProps codes c.code c.property
    let r := validateGo codes cleanup rest
    ((if cleanup then { c with property := pr.1 } else c) :: r.1,
     pr.2.1 ++ r.2.1, pr.2.2.1 ++ r.2.2.1, pr.2.2.2 + r.2.2.2)

/-- Embeds `validateParentChildReferences(templateJson, cleanupInvalidRefs)`:
returns the (possibly cleaned) collection together with the result object of
`src/index.js` lines 225-234. -/
def validateParentChildReferences (concepts : List Concept) (cleanup : Bool) :
    List Concept × ValidationResult :=
  let codes := conceptCodes concepts
  let r := validateGo codes cleanup concepts
  let totalInvalid := r.2.1.length + r.2.2.1.length
  (r.1,
   { valid := totalInvalid == 0,
     invalidParent := r.2.1,
     invalidChild := r.2.2.1,
     stats :=
       { totalConcepts := r.1.length,
         invalidParentRefs := r.2.1.length,
         invalidChildRefs := r.2.2.1.length,
         removedCount := if cleanup then r.2.2.2 else 0 } })

/-- Total number of property entries across a collection. -/
def totalPropCount (concepts : List Concept) : Nat :=
  (concepts.map (fun c => c.property.length)).sum

theorem validateGo_length (codes : List String) (cleanup : Bool) (l : List Concept) :
    (validateGo codes cleanup l).1.length = l.length := by
  induction l with
  | nil => rfl
  | cons c rest ih => simp [validateGo, ih]

theorem validateGo_fst_no_cleanup (codes : List String) (l : List Concept) :
    (validateGo codes false l).1 = l := by
  induction l with
  | nil => rfl
  | cons c rest ih => simp [validateGo, ih]

theorem checkProps_mem (codes : List String) (cname : String)
    (props : List ConceptProperty) (p : ConceptProperty)
    (h : p ∈ (checkProps codes cname props).1) :
    p ∈ props ∧ isInvalidParentRef codes p = false ∧ isInvalidChildRef codes p = false := by
  induction props with
  | nil => simp [checkProps] at h
  | cons q rest ih =>
    rw [checkProps] at h
    split at h
    · have := ih h
      exact ⟨List.mem_cons_of_mem _ this.1, this.2⟩
    · split at h
      · have := ih h
        exact ⟨List.mem_cons_of_mem _ this.1, this.2⟩
      · rcases List.mem_cons.mp h with rfl | h
        · rename_i hp hc
          exact ⟨by simp, Bool.of_not_eq_true hp, Bool.of_not_eq_true hc⟩
        · have := ih h
          exact ⟨List.mem_cons_of_mem _ this.1, this.2⟩

theorem checkProps_count (codes : List String) (cname : String)
    (props : List ConceptProperty) :
    (checkProps codes cname props).1.length + (checkProps codes cname props).2.2.2
      = props.length := by
  induction props with
  | nil => rfl
  | cons q rest ih =>
    rw [checkProps]
    split
    · simpa using by omega
    · split
      · simpa using by omega
      · simpa using by omega

theorem validateGo_cleanup_fst (codes : List String) (l : List Concept) :
    (validateGo codes true l).1
      = l.map (fun c => { c with property := (checkProps codes c.code c.property).1 }) := by
  induction l with
  | nil => rfl
  | cons c rest ih => simp [validateGo, ih]

theorem conceptCodes_validateGo (codes : List String) (l : List Concept) :
    conceptCodes (validateGo codes true l).1 = conceptCodes l := by
  rw [validateGo_cleanup_fst]
  induction l with
  | nil => rfl
  | cons c rest ih =>
    simp only [List.map_cons, conceptCodes, List.filter_cons] at ih ⊢
    cases h : (c.code != "") <;> simp [h, ih]

theorem validateGo_cleanup_count (codes : List String) (l : List Concept) :
    (validateGo codes true l).2.2.2 + totalPropCount (validateGo codes true l).1
      = totalPropCount l := by
  induction l with
  | nil => rfl
  | cons c rest ih =>
    have hc := checkProps_count codes c.code c.property
    have h1 : (validateGo codes true (c :: rest)).2.2.2
        = (checkProps codes c.code c.property).2.2.2
          + (validateGo codes true rest).2.2.2 := rfl
    have h2 : totalPropCount (validateGo codes true (c :: rest)).1
        = (checkProps codes c.code c.property).1.length
          + totalPropCount (validateGo codes true rest).1 := by
      rw [validateGo_cleanup_fst, validateGo_cleanup_fst]
      simp [totalPropCount]
    have h3 : totalPropCount (c :: rest) = c.property.length + totalPropCount rest := by
      simp [totalPropCount]
    omega

/-- C8: with cleanup disabled the validator mutates nothing — the concept
collection is returned unchanged — and the reported `removedCount` stat is 0;
invalid references are only recorded in the result. -/
theorem validate_no_cleanup_frame (concepts : List Concept) :
    (validateParentChildReferences concepts false).1 = concepts
    ∧ (validateParentChildReferences concepts false).2.stats.removedCount = 0 := by
  exact ⟨validateGo_fst_no_cleanup _ concepts, rfl⟩

/-- The claim of C2 as stated: every `parent`/`child` property's `valueCode`
(including an empty one) is a code present in the collection. -/
def allParentChildResolve (concepts : List Concept) : Bool :=
  concepts.all fun c => c.property.all fun p =>
    !(p.code == "parent" || p.code == "child")
      || decide (valueCodeOf p ∈ conceptCodes concepts)

/-- C2 counterexample: a `parent` property whose `valueCode` is falsy (`""`)
is kept by the cleanup filter (the source's truthiness guard skips it), yet
resolves to no concept in the output, so the claim as stated fails. -/
theorem validate_cleanup_counterexample :
    allParentChildResolve
      (validateParentChildReferences
        [⟨"A", "", [⟨"parent", PVal.vCode ""⟩]⟩] true).1 = false := by
  decide

/-- C2 (amended): after validation with cleanup enabled, every remaining
`parent`/`child` property with a truthy (non-empty) `valueCode` resolves to a
concept code present in the output, and the reported `removedCount` equals
the number of property entries absent from the post-cleanup output. -/
theorem validate_cleanup_sound (concepts : List Concept) :
    (∀ c ∈ (validateParentChildReferences concepts true).1,
      ∀ p ∈ c.property,
        (p.code = "parent" ∨ p.code = "child") → valueCodeOf p ≠ "" →
          valueCodeOf p ∈ conceptCodes (validateParentChildReferences concepts true).1)
    ∧ (validateParentChildReferences concepts true).2.stats.removedCount
        = totalPropCount concepts
          - totalPropCount (validateParentChildReferences concepts true).1 := by
  constructor
  · intro c hc p hp hpc hvc
    have hcfst : (validateParentChildReferences concepts true).1
        = (validateGo (conceptCodes concepts) true concepts).1 := rfl
    rw [hcfst] at hc
    rw [hcfst, conceptCodes_validateGo]
    rw [validateGo_cleanup_fst] at hc
    rcases List.mem_map.mp hc with ⟨d, _, rfl⟩
    have hmem := checkProps_mem _ _ _ p hp
    rcases hpc with hpar | hchi
    · have hfalse := hmem.2.1
      by_contra hnotmem
      rw [isInvalidParentRef] at hfalse
      simp [hpar, hvc, hnotmem] at hfalse
    · have hfalse := hmem.2.2
      by_contra hnotmem
      rw [isInvalidChildRef] at hfalse
      simp [hchi, hvc, hnotmem] at hfalse
  · have := validateGo_cleanup_count (conceptCodes concepts) concepts
    have hrc : (validateParentChildReferences concepts true).2.stats.removedCount
        = (validateGo (conceptCodes concepts) true concepts).2.2.2 := rfl
    have hfst : (validateParentChildReferences concepts true).1
        = (validateGo (conceptCodes concepts) true concepts).1 := rfl
    rw [hrc, hfst]
    omega

theorem validate_cleanup_sound_witness :
    ("A" ∈ conceptCodes
        (validateParentChildReferences
          [⟨"A", "", [⟨"parent", PVal.vCode "NOPE999"⟩, ⟨"child", PVal.vCode "A"⟩]⟩]
          true).1)
    ∧ (validateParentChildReferences
        [⟨"A", "", [⟨"parent", PVal.vCode "NOPE999"⟩, ⟨"child", PVal.vCode "A"⟩]⟩]
        true).2.stats.removedCount
      = totalPropCount
          [⟨"A", "", [⟨"parent", PVal.vCode "NOPE999"⟩, ⟨"child", PVal.vCode "A"⟩]⟩]
        - totalPropCount
            (validateParentChildReferences
              [⟨"A", "", [⟨"parent", PVal.vCode "NOPE999"⟩, ⟨"child", PVal.vCode "A"⟩]⟩]
              true).1 := by
  have h := validate_cleanup_sound
    [⟨"A", "", [⟨"parent", PVal.vCode "NOPE999"⟩, ⟨"child", PVal.vCode "A"⟩]⟩]
  refine ⟨?_, h.2⟩
  have := h.1 ⟨"A", "", [⟨"child", PVal.vCode "A"⟩]⟩ (by decide)
    ⟨"child", PVal.vCode "A"⟩ (by decide) (Or.inr rfl) (by decide)
  exact this

/-! Section: Pipeline order — `processTMTData`, `src/index.js` lines 317-329

After the eight entity processors have filled the collection, the source
runs `validateParentChildReferences` (line 321) and then
`removeDuplicateConcepts` (line 325), in that order, before writing the
output document. -/

/-- The post-assembly tail of `processTMTData`: validation first (line 321),
deduplication second (line 325); returns the final collection, the
validation result and the duplicate-removal count. -/
def finalizeConcepts (concepts : List Concept) (cleanup : Bool) :
    List Concept × ValidationResult × Nat :=
  let v := validateParentChildReferences concepts cleanup
  let d := removeDuplicateConcepts v.1
  (d.1, v.2, d.2)

/-- Modelled from the spec order claim of C3: the Deduplicator runs first
and its output feeds the Reference Validator. -/
def specDedupThenValidate (concepts : List Concept) (cleanup : Bool) :
    List Concept × ValidationResult × Nat :=
  let d := removeDuplicateConcepts concepts
  let v := validateParentChildReferences d.1 cleanup
  (v.1, v.2, d.2)

/-- C3 counterexample: on a collection containing a duplicate concept the
source pipeline and the spec's claimed order disagree (the validator's
`totalConcepts` stat is computed before deduplication in the source, after
it under the claimed order). -/
theorem finalize_order_counterexample :
    finalizeConcepts [⟨"A", "", []⟩, ⟨"A", "", []⟩] true
      ≠ specDedupThenValidate [⟨"A", "", []⟩, ⟨"A", "", []⟩] true := by
  decide

/-- C3 (amended): the pipeline applies the Reference Validator first and the
Deduplicator second — the validator's output feeds the deduplicator — so the
final collection is the deduplication of the validator's output and the
validation stats are computed over the full pre-dedup collection. -/
theorem finalize_order (concepts : List Concept) (cleanup : Bool) :
    (finalizeConcepts concepts cleanup).1
      = (removeDuplicateConcepts (validateParentChildReferences concepts cleanup).1).1
    ∧ (finalizeConcepts concepts cleanup).2.1.stats.totalConcepts = concepts.length := by
  exact ⟨rfl, validateGo_length _ cleanup concepts⟩

/-! Section: Entity processors

Spreadsheet rows after the source's `String(...)` conversions are
`List String`; `rowGet r i` models `String(r[i])` at the in-bounds positions
the source guards with `row.length > 1`, and yields the falsy `""` at the
positions the source only ever tests for truthiness. -/

/-- Embeds `row[i]` as a string (`""` for an absent cell, which the source only
uses where falsiness and inequality to a real code coincide). -/
def rowGet (r : List String) (i : Nat) : String :=
  r.getD i ""

/-- Embeds `BaseProcessor.createConcept` (`src/modules/gpProcessor.js`, the
`BaseProcessor` class): base concept with `class` = the processor's entity
type, `status` = `"active"` and `abstract` = boolean `false` — for every
entity type, GP, TPU and TPP included. -/
def createConcept (entityType code display : String) : Concept :=
  { code := code,
    display := display,
    property :=
      [⟨"class", .vCode entityType⟩,
       ⟨"status", .vCode "active"⟩,
       ⟨"abstract", .vBool false⟩] }

/-- Embeds `createGPUConcept` (`src/modules/gpuProcessor.js` lines 167-186): note
`valueBoolean: "true"` — a string, not a boolean. -/
def createGPUConcept (gpuCode gpuDisplay : String) : Concept :=
  { code := gpuCode,
    display := gpuDisplay,
    property :=
      [⟨"class", .vCode "GPU"⟩,
       ⟨"status", .vCode "active"⟩,
       ⟨"abstract", .vBoolStr "true"⟩] }

/-- Embeds `createVTMConcept` (`src/modules/vtmProcessor.js` lines 156-175). -/
def createVTMConcept (vtmCode vtmDisplay : String) : Concept :=
  { code := vtmCode,
    display := vtmDisplay,
    property :=
      [⟨"class", .vCode "VTM"⟩,
       ⟨"status", .vCode "active"⟩,
       ⟨"abstract", .vBool false⟩] }

/-- Embeds `createSUBSConcept` (`src/modules/subsProcessor.js` lines 145-164). -/
def createSUBSConcept (subsCode subsDisplay : String) : Concept :=
  { code := subsCode,
    display := subsDisplay,
    property :=
      [⟨"class", .vCode "SUBS"⟩,
       ⟨"status", .vCode "active"⟩,
       ⟨"abstract", .vBool false⟩] }

/-- Append one property to a concept's `property` array
(`concept.property.push(...)`). -/
def pushProperty (c : Concept) (p : ConceptProperty) : Concept :=
  { c with property := c.property ++ [p] }

/-- Embeds `GPProcessor.addVTMParent` (`src/modules/gpProcessor.js` lines 120-131):
finds the first `vtmtogp` row whose second column equals the GP code and
pushes its first column as a `parent` property — with no self-reference
check. -/
def addVTMParent (gpConcept : Concept) (vtmToGpRows : List (List String))
    (gpCode : String) : Concept :=
  match vtmToGpRows.find? (fun row => decide (row.length > 1) && (rowGet row 1 == gpCode)) with
  | some row => pushProperty gpConcept ⟨"parent", .vCode (rowGet row 0)⟩
  | none => gpConcept

/-- Embeds `GPProcessor.addTPChildren` (`src/modules/gpProcessor.js` lines
139-152). -/
def addTPChildren (gpConcept : Concept) (gpToTpRows : List (List String))
    (gpCode : String) : Concept :=
  let tpChildren := gpToTpRows.filter
    (fun row => decide (row.length > 1) && (rowGet row 0 == gpCode))
  { gpConcept with property :=
      gpConcept.property ++ tpChildren.map (fun row => ⟨"child", .vCode (rowGet row 1)⟩) }

/-- Embeds `GPProcessor.addGPUChildren` (`src/modules/gpProcessor.js` lines
160-173). -/
def addGPUChildren (gpConcept : Concept) (gpToGpuRows : List (List String))
    (gpCode : String) : Concept :=
  let gpuChildren := gpToGpuRows.filter
    (fun row => decide (row.length > 1) && (rowGet row 0 == gpCode))
  { gpConcept with property :=
      gpConcept.property ++ gpuChildren.map (fun row => ⟨"child", .vCode (rowGet row 1)⟩) }

/-- Embeds `addSUBSParents` (`src/modules/vtmProcessor.js` lines 183-196): pushes
every `substovtm` row whose second column equals the VTM code as a `parent`
property — with no self-reference check. -/
def addSUBSParents (vtmConcept : Concept) (subsToVtmRows : List (List String))
    (vtmCode : String) : Concept :=
  let subsParents := subsToVtmRows.filter
    (fun row => decide (row.length > 1) && (rowGet row 1 == vtmCode))
  { vtmConcept with property :=
      vtmConcept.property ++ subsParents.map (fun row => ⟨"parent", .vCode (rowGet row 0)⟩) }

/-- Embeds `BaseProcessor.addParentRelationship` (`src/modules/gpProcessor.js`,
`BaseProcessor` class lines 372-385): the guarded helper that skips a
self-reference with a warning and reports whether the parent was added. -/
def addParentRelationship (concept : Concept) (parentCode conceptCode : String) :
    Concept × Bool :=
  if parentCode == conceptCode then
    (concept, false)
  else
    (pushProperty concept ⟨"parent", .vCode parentCode⟩, true)

/-- Embeds `BaseProcessor.addChildRelationship` (`src/modules/gpProcessor.js`,
`BaseProcessor` class lines 394-407). -/
def addChildRelationship (concept : Concept) (childCode conceptCode : String) :
    Concept × Bool :=
  if childCode == conceptCode then
    (concept, false)
  else
    (pushProperty concept ⟨"child", .vCode childCode⟩, true)

/-- Embeds `BaseProcessor.determineStartIndex`: 1 when row 0's first cell is the
literal header `TMTID(<KIND>)`, else 0. -/
def determineStartIndex (entityType : String) (rows : List (List String)) : Nat :=
  match rows with
  | row :: _ => if rowGet row 0 == "TMTID(" ++ entityType ++ ")" then 1 else 0
  | [] => 0

/-- The loop body of `GPProcessor.processRows` (`src/modules/gpProcessor.js`
lines 80-112) over the rows from `startIndex` on: skip rows with a falsy
first cell, otherwise build the concept, add the VTM parent and the TP and
GPU children, and append; returns the emitted concepts and
`processedCount`. -/
def gpProcessRowsGo (vtmToGp gpToTp gpToGpu : List (List String)) :
    List (List String) → List Concept × Nat
  | [] => ([], 0)
  | row :: rest =>
    let r := gpProcessRowsGo vtmToGp gpToTp gpToGpu rest
    if rowGet row 0 == "" then r
    else
      let gpCode := rowGet row 0
      let c := createConcept "GP" gpCode (rowGet row 1)
      let c := addVTMParent c vtmToGp gpCode
      let c := addTPChildren c gpToTp gpCode
      let c := addGPUChildren c gpToGpu gpCode
      (c :: r.1, r.2 + 1)

/-- Embeds `GPProcessor.processRows(templateJson, gpRows, relationshipRows,
startIndex)`: concepts appended to the collection and the returned count. -/
def gpProcessRows (gpRows vtmToGp gpToTp gpToGpu : List (List String))
    (startIndex : Nat) : List Concept × Nat :=
  gpProcessRowsGo vtmToGp gpToTp gpToGpu (gpRows.drop startIndex)

/-- The value of a concept's `abstract` property. -/
def abstractValueOf (c : Concept) : Option PVal :=
  (c.property.find? (fun p => p.code == "abstract")).map ConceptProperty.val

/-- C4 (amended): the `abstract` property is still fixed per entity kind with
no per-row variation, but not as claimed: every kind built through
`BaseProcessor.createConcept` — GP, TPU and TPP included — gets boolean
`false`, the GPU processor writes the string `"true"` (not a boolean), and
SUBS and VTM get boolean `false`. -/
theorem abstract_per_kind (code display : String) :
    abstractValueOf (createConcept "GP" code display) = some (PVal.vBool false)
    ∧ abstractValueOf (createConcept "TPU" code display) = some (PVal.vBool false)
    ∧ abstractValueOf (createConcept "TPP" code display) = some (PVal.vBool false)
    ∧ abstractValueOf (createGPUConcept code display) = some (PVal.vBoolStr "true")
    ∧ abstractValueOf (createVTMConcept code display) = some (PVal.vBool false)
    ∧ abstractValueOf (createSUBSConcept code display) = some (PVal.vBool false) := by
  exact ⟨rfl, rfl, rfl, rfl, rfl, rfl⟩

/-- C4 counterexample: the claim's `abstract = true` fails for a GP concept
(the shared `createConcept` writes boolean `false`) and for a GPU concept
(whose `valueBoolean` is the string `"true"`, not a boolean). -/
theorem abstract_per_kind_counterexample :
    abstractValueOf (createConcept "GP" "GP001" "X") ≠ some (PVal.vBool true)
    ∧ abstractValueOf (createGPUConcept "GPU001" "Y") ≠ some (PVal.vBool true) := by
  decide

/-- Modelled from the spec scenario of C5: the concept the spec expects,
with `abstract` = boolean `true`. -/
def specExpectedGPConcept : Concept :=
  { code := "GP001",
    display := "Paracetamol GP",
    property :=
      [⟨"class", .vCode "GP"⟩,
       ⟨"status", .vCode "active"⟩,
       ⟨"abstract", .vBool true⟩,
       ⟨"parent", .vCode "VTM001"⟩,
       ⟨"child", .vCode "TP001"⟩] }

/-- C5 counterexample: on the spec's literal end-to-end scenario the GP
processor does not emit the concept the claim expects (its `abstract`
property is boolean `false`, not `true`). -/
theorem gp_scenario_counterexample :
    gpProcessRows [["GP001", "Paracetamol GP"]] [["VTM001", "GP001"]]
        [["GP001", "TP001"]] []
        (determineStartIndex "GP" [["GP001", "Paracetamol GP"]])
      ≠ ([specExpectedGPConcept], 1) := by
  decide

/-- C5 (amended): on the spec's scenario the GP processor emits exactly one
concept `GP001` with property list, in order: `class` = GP, `status` =
active, `abstract` = boolean `false`, `parent` = VTM001, `child` = TP001. -/
theorem gp_scenario :
    gpProcessRows [["GP001", "Paracetamol GP"]] [["VTM001", "GP001"]]
        [["GP001", "TP001"]] []
        (determineStartIndex "GP" [["GP001", "Paracetamol GP"]])
      = ([{ code := "GP001",
            display := "Paracetamol GP",
            property :=
              [⟨"class", .vCode "GP"⟩,
               ⟨"status", .vCode "active"⟩,
               ⟨"abstract", .vBool false⟩,
               ⟨"parent", .vCode "VTM001"⟩,
               ⟨"child", .vCode "TP001"⟩] }], 1) := by
  decide

/-- C1: the self-reference guard is not applied on every path.  A `vtmtogp`
row `["GP001","GP001"]` makes the GP processor emit concept `GP001` with a
`parent` property equal to its own code, and a `substovtm` row
`["VTM1","VTM1"]` does the same for a VTM concept — while the repository's
own guarded helper `BaseProcessor.addParentRelationship`, bypassed by both
call sites, drops exactly such a reference. -/
theorem selfReference_not_dropped :
    (gpProcessRows [["GP001", "X"]] [["GP001", "GP001"]] [] [] 0).1
      = [{ code := "GP001",
           display := "X",
           property :=
             [⟨"class", .vCode "GP"⟩,
              ⟨"status", .vCode "active"⟩,
              ⟨"abstract", .vBool false⟩,
              ⟨"parent", .vCode "GP001"⟩] }]
    ∧ addSUBSParents (createVTMConcept "VTM1" "Y") [["VTM1", "VTM1"]] "VTM1"
        = { code := "VTM1",
            display := "Y",
            property :=
              [⟨"class", .vCode "VTM"⟩,
               ⟨"status", .vCode "active"⟩,
               ⟨"abstract", .vBool false⟩,
               ⟨"parent", .vCode "VTM1"⟩] }
    ∧ addParentRelationship (createConcept "TP" "TP1" "Z") "TP1" "TP1"
        = (createConcept "TP" "TP1" "Z", false) := by
  decide

/-! Section: File location

`findFiles(dirPath, pattern)` (`src/utils/fileUtils.js`) lists one directory
and filters the names by a regex; `BaseProcessor.process`
(`src/modules/gpProcessor.js`, `BaseProcessor` class lines 210-226) locates
the entity file as the first match of `^<KIND>\d{8}\.xls$` (flag `i`) among
the files of the bonus directory's `Concept` subdirectory.
`TPUProcessor` (`src/modules/tpuProcessor.js`) extends `BaseProcessor` with
entity type `"TPU"` and overrides neither `process` nor the entity-file
rule, so TPU is located exactly like the other kinds. -/

/-- ASCII lower-casing of one character — the effect of the `i` regex flag
on the source's ASCII-only patterns. -/
def lcChar (c : Char) : Char :=
  if 'A' ≤ c ∧ c ≤ 'Z' then Char.ofNat (c.toNat + 32) else c

/-- A string as its lower-cased character list. -/
def lcChars (s : String) : List Char :=
  s.data.map lcChar

/-- Embeds `\d`. -/
def isDigitChar (c : Char) : Bool :=
  '0' ≤ c && c ≤ '9'

/-- The entity-file regex `^<KIND>\d{8}\.xls$` with flag `i`: the kind
prefix, eight digits and the literal `.xls`, nothing else. -/
def matchesEntityFilePattern (entityType : String) (filename : String) : Bool :=
  let f := lcChars filename
  let k := lcChars entityType
  (List.take k.length f == k)
    && ((List.drop k.length f).length == 12)
    && ((List.drop k.length f).take 8).all isDigitChar
    && ((List.drop k.length f).drop 8 == ".xls".data)

/-- The snapshot regex `_SNAPSHOT\.xls$` with flag `i` (used only by the
legacy function-based TPU module, not by the current `TPUProcessor`). -/
def matchesSnapshotPattern (filename : String) : Bool :=
  let f := lcChars filename
  let s := "_snapshot.xls".data
  List.drop (f.length - s.length) f == s

/-- The directories of one extracted distribution that entity location reads
from: the files directly inside the top-level `TMTRF<date>` folder and the
files of the bonus folder's `Concept` and `Relationship` subdirectories. -/
structure ExtractedTree where
  tmtTopFiles : List String
  bonusConceptFiles : List String
  bonusRelationshipFiles : List String
deriving DecidableEq, Repr

/-- Embeds `findFiles` over one directory's file names. -/
def findFilesIn (files : List String) (pattern : String → Bool) : List String :=
  files.filter pattern

/-- Embeds `BaseProcessor.process` entity-file location: first match of the
entity-file pattern in the bonus `Concept` directory (`entityFiles[0]`). -/
def baseProcessorLocateEntityFile (entityType : String) (tree : ExtractedTree) :
    Option String :=
  (findFilesIn tree.bonusConceptFiles (matchesEntityFilePattern entityType)).head?

/-- TPU entity-file location: the rule `TPUProcessor` inherits unchanged
from `BaseProcessor.process`. -/
def tpuLocateEntityFile (tree : ExtractedTree) : Option String :=
  baseProcessorLocateEntityFile "TPU" tree

/-- Modelled from the spec claim of C6: the TPU entity located as a
`*_SNAPSHOT.xls` file directly inside the top-level extracted folder. -/
def specTpuSnapshotLocate (tree : ExtractedTree) : Option String :=
  (findFilesIn tree.tmtTopFiles matchesSnapshotPattern).head?

/-- C6 counterexample: on a distribution carrying both a
`Concept/TPU20250407.xls` file and a top-level snapshot file, the current
code reads TPU rows from the `Concept` file while the claim's locator picks
the snapshot file. -/
theorem tpu_locator_counterexample :
    tpuLocateEntityFile
        ⟨["TMTRF20250407_SNAPSHOT.xls"], ["TPU20250407.xls"], []⟩
      = some "TPU20250407.xls"
    ∧ specTpuSnapshotLocate
        ⟨["TMTRF20250407_SNAPSHOT.xls"], ["TPU20250407.xls"], []⟩
      = some "TMTRF20250407_SNAPSHOT.xls"
    ∧ tpuLocateEntityFile
        ⟨["TMTRF20250407_SNAPSHOT.xls"], ["TPU20250407.xls"], []⟩
      ≠ specTpuSnapshotLocate
        ⟨["TMTRF20250407_SNAPSHOT.xls"], ["TPU20250407.xls"], []⟩ := by
  decide

/-- C6 (amended): the TPU entity file is located exactly like every other
kind's — any located file lies in the bonus `Concept` directory and matches
`^TPU\d{8}\.xls$` case-insensitively — and the pattern is the standard one,
not the snapshot rule. -/
theorem tpu_locator (tree : ExtractedTree) :
    (∀ f, tpuLocateEntityFile tree = some f →
      f ∈ tree.bonusConceptFiles ∧ matchesEntityFilePattern "TPU" f = true)
    ∧ tpuLocateEntityFile tree = baseProcessorLocateEntityFile "TPU" tree
    ∧ matchesEntityFilePattern "TPU" "TPU20250407.xls" = true
    ∧ matchesEntityFilePattern "TPU" "tpu20250407.XLS" = true
    ∧ matchesSnapshotPattern "TPU20250407.xls" = false := by
  refine ⟨?_, rfl, by decide, by decide, by decide⟩
  intro f hf
  have hmem : f ∈ tree.bonusConceptFiles.filter (matchesEntityFilePattern "TPU") := by
    rcases hl : tree.bonusConceptFiles.filter (matchesEntityFilePattern "TPU")
      with _ | ⟨a, as⟩
    · rw [tpuLocateEntityFile, baseProcessorLocateEntityFile, findFilesIn, hl] at hf
      simp at hf
    · rw [tpuLocateEntityFile, baseProcessorLocateEntityFile, findFilesIn, hl] at hf
      simp only [List.head?_cons, Option.some.injEq] at hf
      exact hf ▸ List.mem_cons_self a as
  exact ⟨(List.mem_filter.mp hmem).1, (List.mem_filter.mp hmem).2⟩

theorem tpu_locator_witness :
    ("TPU20250407.xls"
        ∈ (⟨["TMTRF20250407_SNAPSHOT.xls"], ["TPU20250407.xls"], []⟩
            : ExtractedTree).bonusConceptFiles)
    ∧ matchesEntityFilePattern "TPU" "TPU20250407.xls" = true := by
  have h := tpu_locator ⟨["TMTRF20250407_SNAPSHOT.xls"], ["TPU20250407.xls"], []⟩
  exact h.1 "TPU20250407.xls" (by decide)

/-! Section: Run outcome — `processTMTData`, `src/index.js` lines 240-353

The whole pipeline runs inside one `try`; the output file is written only as
the last step of the `try` body (line 329), so no earlier fatal error ever
produces an output file.  The `catch` (lines 343-344) logs the error and
does not rethrow; the `finally` (lines 345-349) always removes the temp
directory.  Nothing in the repository calls `process.exit` or assigns
`process.exitCode`, so the process exits 0 whether or not the pipeline
failed. -/

/-- A fatal error raised inside the `try` body. -/
inductive FatalError where
  | requiredDirsNotFound
  | entityFileNotFound (entityType : String)
  | relationshipFilesNotFound (entityType : String)
  | other (message : String)
deriving DecidableEq, Repr

/-- Sequencing of the pipeline steps: the first failing step aborts the
remaining ones (every processor rethrows its error). -/
def runStages : List (Except FatalError Unit) → Except FatalError Unit
  | [] => .ok ()
  | s :: rest =>
    match s with
    | .ok _ => runStages rest
    | .error e => .error e

/-- The `try` body up to the write step: directory discovery (line 287
throws when the `TMTRF` directories are missing), then the processor and
validation/dedup stages in order. -/
def pipelineBody (tmtDirsFound : Bool)
    (stageResults : List (Except FatalError Unit)) : Except FatalError Unit :=
  if tmtDirsFound then runStages stageResults else .error .requiredDirsNotFound

/-- The externally observable outcome of one run: whether the output
document was written, whether the temp directory was removed, whether an
error was reported, and the process exit code. -/
structure RunOutcome where
  outputWritten : Bool
  tempCleanedUp : Bool
  errorReported : Bool
  exitCode : Nat
deriving DecidableEq, Repr

/-- The `try`/`catch`/`finally` of `processTMTData`: on success the output
is written; on failure it is not and the error is logged; the temp cleanup
runs on both paths; the exit code is 0 on both paths because the catch
swallows the error. -/
def processTMTDataOutcome (tmtDirsFound : Bool)
    (stageResults : List (Except FatalError Unit)) : RunOutcome :=
  match pipelineBody tmtDirsFound stageResults with
  | .ok _ => ⟨true, true, false, 0⟩
  | .error _ => ⟨false, true, true, 0⟩

/-- C9 counterexample: on a run whose GP entity file is missing, the claim's
conjunction fails — everything holds except the non-zero exit code, because
the catch block swallows the error and the process exits 0. -/
theorem pipeline_failure_counterexample :
    ¬ ((processTMTDataOutcome true
          [Except.error (FatalError.entityFileNotFound "GP")]).outputWritten = false
       ∧ (processTMTDataOutcome true
          [Except.error (FatalError.entityFileNotFound "GP")]).tempCleanedUp = true
       ∧ (processTMTDataOutcome true
          [Except.error (FatalError.entityFileNotFound "GP")]).errorReported = true
       ∧ (processTMTDataOutcome true
          [Except.error (FatalError.entityFileNotFound "GP")]).exitCode ≠ 0) := by
  decide

/-- C9 (amended): if any fatal error is raised during the main pipeline, no
output document is written, the temporary extraction directory is still
cleaned up and the error is reported — but the process exits 0, not
non-zero, because the catch block only logs the error. -/
theorem pipeline_failure_outcome (tmtDirsFound : Bool)
    (stageResults : List (Except FatalError Unit)) (e : FatalError)
    (h : pipelineBody tmtDirsFound stageResults = .error e) :
    processTMTDataOutcome tmtDirsFound stageResults
      = ⟨false, true, true, 0⟩ := by
  unfold processTMTDataOutcome
  rw [h]

theorem pipeline_failure_outcome_witness :
    processTMTDataOutcome true [Except.error (FatalError.entityFileNotFound "GP")]
      = ⟨false, true, true, 0⟩ := by
  exact pipeline_failure_outcome true
    [Except.error (FatalError.entityFileNotFound "GP")]
    (FatalError.entityFileNotFound "GP") rfl

end TMT
